import Mathlib

/-!
# Verification of the front-run-vanilla decision core

Shallow embedding of the repository's decision core:
`src/risk/limits.rs` (RiskManager), `src/strategy/signals/flow.rs`
(FlowAnalyzer), `src/strategy/signals/imbalance.rs` (ImbalanceDetector),
`src/strategy/signals/composite.rs` (SignalAggregator / CompositeSignal),
and the risk gate of `src/strategy/execution.rs` (ExecutionEngine).

Modelling conventions:
* `rust_decimal::Decimal` and `f64` values are embedded as `ℚ`; all of the
  arithmetic that the claims depend on is exact in `ℚ`.
* `SystemTime` instants are embedded as `ℕ` milliseconds; `SystemTime::now()`
  becomes an explicit `now : ℕ` argument threaded through the operations,
  and `a - Duration::from(d)` becomes truncated `ℕ` subtraction.
* `VecDeque` becomes `List` with the head as the queue front (oldest).
* Methods on `&mut self` become functions `State → ... → State` (or
  `State × result` when the method also returns a value).
* The crate's `data` module (`Trade`, `Signal`, `Side`, `SignalComponent`,
  `OrderBook`) is not present under the repository sources; those types are
  modelled from the spec where noted in the corresponding doc comments.
-/

/-- Modelled from the spec: trade/signal direction (`data::Side`), §3. -/
inductive Side where
  | buy
  | sell
deriving DecidableEq, Repr

/-- Modelled from the spec: a trade event `{price, quantity, aggressor_side,
timestamp}` (§6).  The crate's `data::Trade` is missing from the sources; the
flow analyzer only consumes `quantity`, `timestamp` and the aggressor
direction (`is_aggressive_buy` / `is_aggressive_sell`), which we represent by
the single `aggressor` field per the spec's glossary entry for
"aggressive (taker) trade". -/
structure TradeQ where
  price : ℚ
  quantity : ℚ
  aggressor : Side
  timestamp : ℕ
deriving DecidableEq, Repr

/-- `TradeQ.is_aggressive_buy`, modelled from the spec (glossary). -/
def TradeQ.isAggressiveBuy (t : TradeQ) : Bool := t.aggressor = Side.buy

/-- Modelled from the spec: a named diagnostic value (`data::SignalComponent`,
"components: named diagnostic values", §3); `SignalComponent::new(name, value,
weight)` is the plain constructor. -/
structure SignalComponent where
  name : String
  value : ℚ
  weight : ℚ
deriving DecidableEq, Repr

/-- Modelled from the spec: `data::Signal` = `{strength: signed real,
direction, confidence, timestamp, components}` (§3). -/
structure SignalQ where
  strength : ℚ
  direction : Side
  confidence : ℚ
  timestamp : ℕ
  components : List SignalComponent
deriving DecidableEq, Repr

/-- Modelled from the spec: `Signal::abs_strength`, the `|strength|` used for
the aggregator's "maximum `|strength|`" primary selection (§4.4). -/
def SignalQ.absStrength (s : SignalQ) : ℚ := |s.strength|

/-! ## RiskManager (src/risk/limits.rs) -/

/-- `ViolationSeverity` (src/risk/limits.rs). -/
inductive ViolationSeverity where
  | warning
  | block
  | emergency
deriving DecidableEq, Repr

/-- `RiskViolation` (src/risk/limits.rs). -/
structure RiskViolation where
  reason : String
  severity : ViolationSeverity
deriving DecidableEq, Repr

/-- `RiskLimits` (src/risk/limits.rs). -/
structure RiskLimits where
  maxPositionSize : ℚ
  maxPortfolioExposure : ℚ
  maxDailyLoss : ℚ
  maxDrawdownPercent : ℚ
  maxTradesPerHour : ℕ
  maxTradesPerDay : ℕ
  maxAcceptableLatencyMs : ℕ
deriving DecidableEq, Repr

/-- `impl Default for RiskLimits` (src/risk/limits.rs). -/
def RiskLimits.default : RiskLimits where
  maxPositionSize := 5000
  maxPortfolioExposure := 10000
  maxDailyLoss := 500
  maxDrawdownPercent := 10
  maxTradesPerHour := 30
  maxTradesPerDay := 200
  maxAcceptableLatencyMs := 500

/-- `RiskManager` state (src/risk/limits.rs).  `hourlyTrades` and
`recentLatencies` are queues with the head as the oldest element. -/
structure RiskManager where
  limits : RiskLimits
  dailyPnl : ℚ
  dailyTrades : ℕ
  dayStart : ℕ
  hourlyTrades : List ℕ
  peakEquity : ℚ
  currentEquity : ℚ
  recentLatencies : List ℕ
  tradingHalted : Bool
  haltReason : Option String
deriving DecidableEq, Repr

/-- `RiskManager::new(limits, initial_equity)`; `day_start: SystemTime::now()`
becomes the explicit `now` argument. -/
def RiskManager.new (limits : RiskLimits) (initialEquity : ℚ) (now : ℕ) :
    RiskManager where
  limits := limits
  dailyPnl := 0
  dailyTrades := 0
  dayStart := now
  hourlyTrades := []
  peakEquity := initialEquity
  currentEquity := initialEquity
  recentLatencies := []
  tradingHalted := false
  haltReason := none

/-- `RiskManager::halt_trading(reason)`. -/
def RiskManager.haltTrading (st : RiskManager) (reason : String) : RiskManager :=
  { st with tradingHalted := true, haltReason := some reason }

/-- `RiskManager::resume_trading()`. -/
def RiskManager.resumeTrading (st : RiskManager) : RiskManager :=
  { st with tradingHalted := false, haltReason := none }

/-- `RiskManager::is_halted()`. -/
def RiskManager.isHalted (st : RiskManager) : Bool := st.tradingHalted

/-- `RiskManager::calculate_drawdown()`: `(peak - current) / peak * 100`,
`0` when `peak_equity` is zero. -/
def RiskManager.calculateDrawdown (st : RiskManager) : ℚ :=
  if st.peakEquity = 0 then 0
  else (st.peakEquity - st.currentEquity) / st.peakEquity * 100

/-- `RiskManager::average_latency()`: integer (`u64`) division of the sum by
the count; `None` on an empty buffer. -/
def RiskManager.averageLatency (st : RiskManager) : Option ℕ :=
  if st.recentLatencies.isEmpty then none
  else some (st.recentLatencies.sum / st.recentLatencies.length)

/-- The front-eviction loop of `RiskManager::cleanup_old_trades`: pop from the
front while the front instant is older than the cutoff. -/
def dropOlderThan (cutoff : ℕ) : List ℕ → List ℕ
  | [] => []
  | t :: ts => if t < cutoff then dropOlderThan cutoff ts else t :: ts

/-- `RiskManager::cleanup_old_trades()`: remove hourly-trade instants older
than one hour (3 600 000 ms) before `now`. -/
def RiskManager.cleanupOldTrades (st : RiskManager) (now : ℕ) : RiskManager :=
  { st with hourlyTrades := dropOlderThan (now - 3600000) st.hourlyTrades }

/-- `RiskManager::check_new_day()`: reset the daily counters when at least
86 400 s have elapsed since `day_start`. -/
def RiskManager.checkNewDay (st : RiskManager) (now : ℕ) : RiskManager :=
  if 86400 ≤ (now - st.dayStart) / 1000 then
    { st with dailyPnl := 0, dailyTrades := 0, dayStart := now }
  else st

/-- `RiskManager::record_trade(pnl)`. -/
def RiskManager.recordTrade (st : RiskManager) (pnl : ℚ) (now : ℕ) :
    RiskManager :=
  let st1 := { st with
    hourlyTrades := st.hourlyTrades ++ [now]
    dailyTrades := st.dailyTrades + 1
    dailyPnl := st.dailyPnl + pnl
    currentEquity := st.currentEquity + pnl }
  let st2 :=
    if st1.peakEquity < st1.currentEquity then
      { st1 with peakEquity := st1.currentEquity }
    else st1
  st2.checkNewDay now

/-- The "of the most recent 10 readings, how many exceed the limit" count of
`RiskManager::record_latency` (`iter().rev().take(10).filter(..).count()`). -/
def countHighLatency (maxLatency : ℕ) (lats : List ℕ) : ℕ :=
  ((lats.reverse.take 10).filter (fun l => maxLatency < l)).length

/-- `RiskManager::record_latency(latency_ms)`: push into the buffer, evict the
oldest past capacity 100, and halt when at least 8 of the most recent 10
readings exceed `max_acceptable_latency_ms`. -/
def RiskManager.recordLatency (st : RiskManager) (latencyMs : ℕ) : RiskManager :=
  let pushed := st.recentLatencies ++ [latencyMs]
  let lats := if 100 < pushed.length then pushed.drop 1 else pushed
  let st1 := { st with recentLatencies := lats }
  if 10 ≤ lats.length then
    if 8 ≤ countHighLatency st1.limits.maxAcceptableLatencyMs lats then
      st1.haltTrading "Consistent high latency detected"
    else st1
  else st1

/-- `RiskManager::can_open_position(position_size, current_exposure)`:
the ordered, short-circuiting sequence of risk checks, returning the updated
state together with `Result<(), RiskViolation>`. -/
def RiskManager.canOpenPosition (st : RiskManager) (positionSize currentExposure : ℚ)
    (now : ℕ) : RiskManager × Except RiskViolation Unit :=
  if st.tradingHalted then
    (st, .error ⟨"Trading halted: " ++ st.haltReason.getD "Unknown",
      ViolationSeverity.emergency⟩)
  else if st.limits.maxPositionSize < positionSize then
    (st, .error ⟨"Position size " ++ toString positionSize ++ " exceeds limit "
      ++ toString st.limits.maxPositionSize, ViolationSeverity.block⟩)
  else if st.limits.maxPortfolioExposure < currentExposure + positionSize then
    (st, .error ⟨"Portfolio exposure " ++ toString (currentExposure + positionSize)
      ++ " exceeds limit " ++ toString st.limits.maxPortfolioExposure,
      ViolationSeverity.block⟩)
  else if st.dailyPnl < -st.limits.maxDailyLoss then
    (st.haltTrading "Daily loss limit exceeded",
      .error ⟨"Daily loss " ++ toString st.dailyPnl ++ " exceeds limit "
        ++ toString st.limits.maxDailyLoss, ViolationSeverity.emergency⟩)
  else if st.limits.maxDrawdownPercent < st.calculateDrawdown then
    (st.haltTrading "Drawdown limit exceeded",
      .error ⟨"Drawdown " ++ toString st.calculateDrawdown ++ "% exceeds limit "
        ++ toString st.limits.maxDrawdownPercent ++ "%",
        ViolationSeverity.emergency⟩)
  else
    let st1 := st.cleanupOldTrades now
    if st1.limits.maxTradesPerHour ≤ st1.hourlyTrades.length then
      (st1, .error ⟨"Hourly trade limit "
        ++ toString st1.limits.maxTradesPerHour ++ " reached",
        ViolationSeverity.block⟩)
    else if st1.limits.maxTradesPerDay ≤ st1.dailyTrades then
      (st1, .error ⟨"Daily trade limit "
        ++ toString st1.limits.maxTradesPerDay ++ " reached",
        ViolationSeverity.block⟩)
    else
      match st1.averageLatency with
      | some avgLatency =>
          if st1.limits.maxAcceptableLatencyMs < avgLatency then
            (st1, .error ⟨"Average latency " ++ toString avgLatency
              ++ "ms exceeds limit "
              ++ toString st1.limits.maxAcceptableLatencyMs ++ "ms",
              ViolationSeverity.warning⟩)
          else (st1, .ok ())
      | none => (st1, .ok ())

/-- The severity of a `can_open_position` outcome (`None` for `Ok`). -/
def severityOf : Except RiskViolation Unit → Option ViolationSeverity
  | .error v => some v.severity
  | .ok _ => none

/-- The state-mutating `RiskManager` operations, for reasoning about
operation sequences.  The read-only accessors (`is_halted`, `halt_reason`,
`get_metrics`) take `&self` and are embedded as pure functions of the state,
so they cannot change it. -/
inductive RMOp where
  | canOpen (size exposure : ℚ) (now : ℕ)
  | trade (pnl : ℚ) (now : ℕ)
  | latency (ms : ℕ)
  | halt (reason : String)
  | resume
deriving DecidableEq

/-- Apply one mutating operation to a `RiskManager`. -/
def applyOp (st : RiskManager) : RMOp → RiskManager
  | .canOpen size exposure now => (st.canOpenPosition size exposure now).1
  | .trade pnl now => st.recordTrade pnl now
  | .latency ms => st.recordLatency ms
  | .halt reason => st.haltTrading reason
  | .resume => st.resumeTrading

/-! ## FlowAnalyzer (src/strategy/signals/flow.rs) -/

/-- `FlowAnalyzer` state.  `trades` is a queue with the head as the oldest
trade; `decay_factor` is set to `0.95` by `FlowAnalyzer::new`. -/
structure FlowAnalyzer where
  trades : List TradeQ
  windowSize : ℕ
  timeWindowMs : ℕ
  threshold : ℚ
  decayFactor : ℚ
deriving DecidableEq, Repr

/-- `FlowAnalyzer::new(window_size, time_window_ms, threshold)`. -/
def FlowAnalyzer.new (windowSize : ℕ) (timeWindowMs : ℕ) (threshold : ℚ) :
    FlowAnalyzer where
  trades := []
  windowSize := windowSize
  timeWindowMs := timeWindowMs
  threshold := threshold
  decayFactor := 0.95

/-- The time-eviction loop of `FlowAnalyzer::cleanup_old_trades`: pop from the
front while the front trade is older than the cutoff. -/
def dropOldTrades (cutoff : ℕ) : List TradeQ → List TradeQ
  | [] => []
  | t :: ts => if t.timestamp < cutoff then dropOldTrades cutoff ts else t :: ts

/-- `FlowAnalyzer::cleanup_old_trades()`: evict by time (older than
`time_window_ms` before `now`), then by count (keep at most `window_size`,
popping from the front). -/
def FlowAnalyzer.cleanupOldTrades (st : FlowAnalyzer) (now : ℕ) : FlowAnalyzer :=
  let byTime := dropOldTrades (now - st.timeWindowMs) st.trades
  let byCount := byTime.drop (byTime.length - st.windowSize)
  { st with trades := byCount }

/-- `FlowAnalyzer::calculate_weighted_volumes()`: walk the queue newest to
oldest, accumulating `quantity * weight` into the buy or sell volume, with the
weight starting at `1.0` and multiplied by `decay_factor` after each trade. -/
def FlowAnalyzer.calculateWeightedVolumes (st : FlowAnalyzer) : ℚ × ℚ :=
  let step := fun (acc : ℚ × ℚ × ℚ) (t : TradeQ) =>
    if t.isAggressiveBuy then
      (acc.1 + t.quantity * acc.2.2, acc.2.1, acc.2.2 * st.decayFactor)
    else
      (acc.1, acc.2.1 + t.quantity * acc.2.2, acc.2.2 * st.decayFactor)
  let r := st.trades.reverse.foldl step (0, 0, 1)
  (r.1, r.2.1)

/-- `FlowAnalyzer::calculate_confidence(imbalance)`. -/
def FlowAnalyzer.calculateConfidence (st : FlowAnalyzer) (imbalance : ℚ) : ℚ :=
  let countFactor := min ((st.trades.length : ℚ) / (st.windowSize : ℚ)) 1
  let imbalanceFactor := min (|imbalance| / 1) 1
  min (countFactor * 0.3 + imbalanceFactor * 0.7) 1

/-- `FlowAnalyzer::process_trade(trade)`: push the trade, evict old trades,
and emit a flow signal when the decayed imbalance exceeds the threshold.
The `Decimal → f64` string round-trip of the source is the identity in the
`ℚ` model. -/
def FlowAnalyzer.processTrade (st : FlowAnalyzer) (trade : TradeQ) (now : ℕ) :
    FlowAnalyzer × Option SignalQ :=
  let st1 := { st with trades := st.trades ++ [trade] }
  let st2 := st1.cleanupOldTrades now
  if st2.trades.length < st2.windowSize / 4 then (st2, none)
  else
    let volumes := st2.calculateWeightedVolumes
    let totalVolume := volumes.1 + volumes.2
    if totalVolume = 0 then (st2, none)
    else
      let imbalance := (volumes.1 - volumes.2) / totalVolume
      if |imbalance| < st2.threshold then (st2, none)
      else
        let direction := if 0 < imbalance then Side.buy else Side.sell
        let strength := imbalance / st2.threshold
        let confidence := st2.calculateConfidence imbalance
        (st2, some
          { strength := strength
            direction := direction
            confidence := confidence
            timestamp := now
            components :=
              [⟨"buy_volume", volumes.1, 1⟩, ⟨"sell_volume", volumes.2, 1⟩,
               ⟨"imbalance", imbalance, 1⟩,
               ⟨"trade_count", (st2.trades.length : ℚ), 0⟩] })

/-- Run `process_trade` over a list of trades, each processed at the instant
it bears (`now = trade.timestamp`), collecting the per-call outputs. -/
def runFlow (st : FlowAnalyzer) : List TradeQ → FlowAnalyzer × List (Option SignalQ)
  | [] => (st, [])
  | t :: ts =>
      let r := st.processTrade t t.timestamp
      let rest := runFlow r.1 ts
      (rest.1, r.2 :: rest.2)

/-! ## ImbalanceDetector (src/strategy/signals/imbalance.rs) -/

/-- `ImbalanceDetector` state.  `history` is a queue with the head oldest. -/
structure ImbalanceDetector where
  levels : ℕ
  history : List ℚ
  windowSize : ℕ
  threshold : ℚ
  minSamples : ℕ
deriving DecidableEq, Repr

/-- `ImbalanceDetector::new(levels, window_size, threshold)`:
`min_samples = window_size / 2`. -/
def ImbalanceDetector.new (levels windowSize : ℕ) (threshold : ℚ) :
    ImbalanceDetector where
  levels := levels
  history := []
  windowSize := windowSize
  threshold := threshold
  minSamples := windowSize / 2

/-- `ImbalanceDetector::calculate_mean()`. -/
def ImbalanceDetector.calculateMean (st : ImbalanceDetector) : ℚ :=
  if st.history.isEmpty then 0 else st.history.sum / st.history.length

/-- `ImbalanceDetector::calculate_stddev(mean)`.  The `f64` square root is not
expressible in the exact `ℚ` model, so it is abstracted as the parameter
`sqrtFn` applied to the population variance; every theorem below holds for
every `sqrtFn`. -/
def ImbalanceDetector.calculateStddev (sqrtFn : ℚ → ℚ) (st : ImbalanceDetector)
    (mean : ℚ) : ℚ :=
  if st.history.length < 2 then 0
  else sqrtFn (((st.history.map (fun x => (x - mean) ^ 2)).sum : ℚ) / st.history.length)

/-- `ImbalanceDetector::calculate_signal(orderbook)`.  The order book lives in
the crate's missing `data` module; per the spec (§4.2 step 1) the detector
consumes only `orderbook.calculate_imbalance(self.levels)`, so that value is
passed in as `ratioOpt : Option ℚ`.  `sqrtFn` abstracts the `f64` square root
used for the standard deviation. -/
def ImbalanceDetector.calculateSignal (sqrtFn : ℚ → ℚ) (st : ImbalanceDetector)
    (ratioOpt : Option ℚ) (now : ℕ) : ImbalanceDetector × Option SignalQ :=
  match ratioOpt with
  | none => (st, none)
  | some ratio =>
    let pushed := st.history ++ [ratio]
    let hist := if st.windowSize < pushed.length then pushed.drop 1 else pushed
    let st1 := { st with history := hist }
    if st1.history.length < st1.minSamples then (st1, none)
    else
      let mean := st1.calculateMean
      let stddev := ImbalanceDetector.calculateStddev sqrtFn st1 mean
      if stddev < 1 / 1000000 then (st1, none)
      else
        let z := (ratio - mean) / stddev
        if |z| < st1.threshold then (st1, none)
        else
          let direction := if 0 < z then Side.buy else Side.sell
          let confidence := min (|z| / (st1.threshold + 1)) 1
          (st1, some
            { strength := z
              direction := direction
              confidence := confidence
              timestamp := now
              components :=
                [⟨"imbalance_ratio", ratio, 1⟩, ⟨"mean", mean, 0⟩,
                 ⟨"stddev", stddev, 0⟩, ⟨"z_score", z, 1⟩] })

/-- Run `calculate_signal` over a list of `(ratio, now)` observations,
collecting the per-call outputs. -/
def runDetector (sqrtFn : ℚ → ℚ) (st : ImbalanceDetector) :
    List (Option ℚ × ℕ) → ImbalanceDetector × List (Option SignalQ)
  | [] => (st, [])
  | (r, n) :: rest =>
      let step := st.calculateSignal sqrtFn r n
      let tail := runDetector sqrtFn step.1 rest
      (tail.1, step.2 :: tail.2)

/-! ## SignalAggregator (src/strategy/signals/composite.rs) -/

/-- `CompositeSignal`. -/
structure CompositeSignalQ where
  primary : SignalQ
  confirming : List SignalQ
  overallStrength : ℚ
  direction : Side
  confidence : ℚ
  timestamp : ℕ
deriving DecidableEq, Repr

/-- `CompositeSignal::is_tradeable(min_confirming)`. -/
def CompositeSignalQ.isTradeable (c : CompositeSignalQ) (minConfirming : ℕ) : Bool :=
  minConfirming ≤ c.confirming.length ∧ (0.5 : ℚ) ≤ c.confidence

/-- `SignalAggregator` configuration. -/
structure SignalAggregator where
  primaryThreshold : ℚ
  confirmingThreshold : ℚ
  minConfirming : ℕ
deriving DecidableEq, Repr

/-- The primary-signal selection of `SignalAggregator::aggregate`:
`signals.iter().max_by(|a, b| a.abs_strength().partial_cmp(&b.abs_strength()))`.
Rust's `Iterator::max_by` returns the LAST maximal element: the fold keeps the
accumulator only when the next element is strictly smaller. -/
def maxByAbsStrength : List SignalQ → Option SignalQ
  | [] => none
  | s :: rest =>
      some (rest.foldl
        (fun acc x => if x.absStrength < acc.absStrength then acc else x) s)

/-- `SignalAggregator::calculate_composite_confidence(primary, confirming)`. -/
def SignalAggregator.calculateCompositeConfidence (agg : SignalAggregator)
    (primary : SignalQ) (confirming : List SignalQ) : ℚ :=
  let primaryConf := primary.confidence * 0.4
  let countFactor :=
    min ((confirming.length : ℚ) / ((agg.minConfirming : ℚ) + 2)) 1
  let countConf := countFactor * 0.3
  let avgConfirmingConf :=
    if confirming.isEmpty then 0
    else ((confirming.map SignalQ.confidence).sum : ℚ) / confirming.length
  let confirmingConf := avgConfirmingConf * 0.3
  min (primaryConf + countConf + confirmingConf) 1

/-- `SignalAggregator::calculate_overall_strength(primary, confirming)`
(`&self` is unused in the source body). -/
def SignalAggregator.calculateOverallStrength (_agg : SignalAggregator)
    (primary : SignalQ) (confirming : List SignalQ) : ℚ :=
  let primaryWeighted := primary.strength * 0.6
  let confirmingWeighted :=
    if confirming.isEmpty then 0
    else ((confirming.map SignalQ.strength).sum : ℚ) / confirming.length * 0.4
  primaryWeighted + confirmingWeighted

/-- `SignalAggregator::aggregate(signals)`.  `SystemTime::now()` for the
composite's timestamp becomes the explicit `now` argument. -/
def SignalAggregator.aggregate (agg : SignalAggregator) (signals : List SignalQ)
    (now : ℕ) : Option CompositeSignalQ :=
  if signals.isEmpty then none
  else
    match maxByAbsStrength signals with
    | none => none
    | some primary =>
      if primary.absStrength < agg.primaryThreshold then none
      else
        let confirming := signals.filter (fun s =>
          s.direction = primary.direction
          ∧ agg.confirmingThreshold ≤ s.absStrength
          ∧ s.timestamp ≠ primary.timestamp)
        if confirming.length < agg.minConfirming then none
        else
          let confidence := agg.calculateCompositeConfidence primary confirming
          let overallStrength := agg.calculateOverallStrength primary confirming
          some
            { primary := primary
              confirming := confirming
              overallStrength := overallStrength
              direction := primary.direction
              confidence := confidence
              timestamp := now }

/-! ## ExecutionEngine risk gate (src/strategy/execution.rs) -/

/-- The decision-relevant state of `ExecutionEngine`.  The REST client, the
symbol, the position manager and the exit parameters only affect the
network/bookkeeping part of execution, which is outside the decision core;
the position manager's `total_exposure()` is passed in as an argument of the
risk gate. -/
structure ExecutionEngine where
  riskManager : RiskManager
  basePositionSize : ℚ
  minSizeMultiplier : ℚ
  maxSizeMultiplier : ℚ
  takerFeeRate : ℚ
deriving DecidableEq, Repr

/-- The constants set by `ExecutionEngine::new`: multipliers `0.5`/`2.0` and
taker fee `0.0004`. -/
def ExecutionEngine.new (riskManager : RiskManager) (basePositionSize : ℚ) :
    ExecutionEngine where
  riskManager := riskManager
  basePositionSize := basePositionSize
  minSizeMultiplier := 0.5
  maxSizeMultiplier := 2.0
  takerFeeRate := 0.0004

/-- `ExecutionEngine::calculate_position_size(confidence)`. -/
def ExecutionEngine.calculatePositionSize (eng : ExecutionEngine)
    (confidence : ℚ) : ℚ :=
  let multiplier := eng.minSizeMultiplier
    + (eng.maxSizeMultiplier - eng.minSizeMultiplier) * confidence
  eng.basePositionSize * multiplier

/-- The risk gate of `ExecutionEngine::execute_signal` (steps 1–2, lines
75–83): compute the position size from the signal confidence, then run
`risk_manager.can_open_position(..).map_err(|e| anyhow!("Risk check failed:
{}", e.reason))?`.  An `Ok` result means execution proceeds to order
placement; ANY violation — Warning included — aborts with `Err`. -/
def ExecutionEngine.executeSignalGate (eng : ExecutionEngine)
    (signalConfidence currentExposure : ℚ) (now : ℕ) :
    ExecutionEngine × Except String Unit :=
  let positionSize := eng.calculatePositionSize signalConfidence
  match eng.riskManager.canOpenPosition positionSize currentExposure now with
  | (rm, .error v) =>
      ({ eng with riskManager := rm }, .error ("Risk check failed: " ++ v.reason))
  | (rm, .ok _) => ({ eng with riskManager := rm }, .ok ())

/-- Did the gate admit the trade (so that execution proceeds)? -/
def proceeds : Except String Unit → Bool
  | .ok _ => true
  | .error _ => false

/-! ## Helper lemmas -/

lemma isAggressiveBuy_buy (p q : ℚ) (ts : ℕ) :
    (TradeQ.mk p q Side.buy ts).isAggressiveBuy = true := rfl

lemma isAggressiveBuy_sell (p q : ℚ) (ts : ℕ) :
    (TradeQ.mk p q Side.sell ts).isAggressiveBuy = false := rfl

/-- Whatever `process_trade` returns, the analyzer state it leaves behind is
the pushed-then-cleaned queue (the early returns all happen after the queue
update). -/
lemma processTrade_fst (st : FlowAnalyzer) (t : TradeQ) (now : ℕ) :
    (st.processTrade t now).1 =
      FlowAnalyzer.cleanupOldTrades { st with trades := st.trades ++ [t] } now := by
  simp only [FlowAnalyzer.processTrade]
  split_ifs <;> rfl

lemma runFlow_fst (st : FlowAnalyzer) (l : List TradeQ) :
    (runFlow st l).1 = l.foldl (fun s t => (s.processTrade t t.timestamp).1) st := by
  induction l generalizing st with
  | nil => rfl
  | cons x xs ih => simp [runFlow, ih]

lemma runFlow_append (st : FlowAnalyzer) (l1 l2 : List TradeQ) :
    runFlow st (l1 ++ l2) =
      ((runFlow (runFlow st l1).1 l2).1,
        (runFlow st l1).2 ++ (runFlow (runFlow st l1).1 l2).2) := by
  induction l1 generalizing st with
  | nil => simp [runFlow]
  | cons x xs ih => simp [runFlow, ih]

/-! ## C5: the FlowAnalyzer acceptance sequence -/

/-- An aggressive buy of quantity 1.0 (price 100 as in the repository's
`create_buy_trade` fixture) at instant `ts`. -/
def buyTrade (ts : ℕ) : TradeQ := ⟨100, 1, Side.buy, ts⟩

/-- An aggressive sell of quantity 1.0 at instant `ts`. -/
def sellTrade (ts : ℕ) : TradeQ := ⟨100, 1, Side.sell, ts⟩

/-- The first 20 trades of the claimed scenario: 15 aggressive buys then
5 aggressive sells, all of quantity 1.0, 1 ms apart (well inside the
5000 ms time window). -/
def first20 : List TradeQ :=
  ((List.range 15).map fun i => buyTrade i)
  ++ ((List.range 5).map fun i => sellTrade (15 + i))

/-- The full claimed scenario: the 20 trades above followed by one more
aggressive buy. -/
def testTrades : List TradeQ := first20 ++ [buyTrade 20]

/-- C5: the claim (and the repository's own test
`test_aggressive_buying_signal`) says the final `process_trade` call of this
sequence returns a Buy signal with positive strength.  It does not: on a
`FlowAnalyzer::new(20, 5000, 0.6)`, after the oldest buy is evicted the
decay-weighted imbalance of the window is
`30664592814837998299 / 92923792814837998299 ≈ 0.33`, which is below the
`0.6` threshold, so the final call returns `None` (step 6 of
`process_trade`). -/
theorem flow_acceptance_sequence_returns_none :
    (runFlow (FlowAnalyzer.new 20 5000 0.6) testTrades).2.getLast? = some none := by
  have hsplit : testTrades = first20 ++ [buyTrade 20] := rfl
  rw [hsplit, runFlow_append]
  have hst : (runFlow (FlowAnalyzer.new 20 5000 0.6) first20).1
      = { trades := first20, windowSize := 20, timeWindowMs := 5000,
          threshold := 0.6, decayFactor := 0.95 } := by
    rw [runFlow_fst]
    simp only [processTrade_fst]
    norm_num [first20, buyTrade, sellTrade, List.range_succ, FlowAnalyzer.new,
      FlowAnalyzer.cleanupOldTrades, dropOldTrades]
  rw [hst]
  have h1 : (runFlow
      { trades := first20, windowSize := 20, timeWindowMs := 5000,
        threshold := 0.6, decayFactor := 0.95 } [buyTrade 20]).2
      = [(FlowAnalyzer.processTrade
          { trades := first20, windowSize := 20, timeWindowMs := 5000,
            threshold := 0.6, decayFactor := 0.95 } (buyTrade 20) 20).2] := by
    simp [runFlow, buyTrade]
  rw [h1, List.getLast?_concat]
  have h2 : (FlowAnalyzer.processTrade
      { trades := first20, windowSize := 20, timeWindowMs := 5000,
        threshold := 0.6, decayFactor := 0.95 } (buyTrade 20) 20).2 = none := by
    norm_num [first20, buyTrade, sellTrade, List.range_succ,
      FlowAnalyzer.processTrade, FlowAnalyzer.cleanupOldTrades, dropOldTrades,
      FlowAnalyzer.calculateWeightedVolumes, FlowAnalyzer.calculateConfidence,
      isAggressiveBuy_buy, isAggressiveBuy_sell, abs_lt]
  rw [h2]

/-! ## RiskManager lemmas -/

/-- C1: `can_open_position` runs its checks in the documented order and
short-circuits at the first failure.  Each conjunct assumes exactly that all
earlier checks pass and the stated check fails, and pins down both the
returned violation's severity and the exact state left behind — in
particular, when an earlier check fails no later side effect happens: the
Block failures of checks 2–3 and the Emergency failure of check 1 leave the
state untouched (no halt, no pruning), checks 4–5 leave exactly the halt
transition, and checks 6–8 leave exactly the hourly-window pruning. -/
theorem canOpenPosition_check_order (st : RiskManager) (size exposure : ℚ)
    (now : ℕ) :
    (st.tradingHalted = true →
      st.canOpenPosition size exposure now =
        (st, .error ⟨"Trading halted: " ++ st.haltReason.getD "Unknown",
          ViolationSeverity.emergency⟩))
  ∧ (st.tradingHalted = false →
      st.limits.maxPositionSize < size →
      (st.canOpenPosition size exposure now).1 = st
      ∧ severityOf (st.canOpenPosition size exposure now).2
          = some ViolationSeverity.block)
  ∧ (st.tradingHalted = false →
      ¬st.limits.maxPositionSize < size →
      st.limits.maxPortfolioExposure < exposure + size →
      (st.canOpenPosition size exposure now).1 = st
      ∧ severityOf (st.canOpenPosition size exposure now).2
          = some ViolationSeverity.block)
  ∧ (st.tradingHalted = false →
      ¬st.limits.maxPositionSize < size →
      ¬st.limits.maxPortfolioExposure < exposure + size →
      st.dailyPnl < -st.limits.maxDailyLoss →
      (st.canOpenPosition size exposure now).1
          = st.haltTrading "Daily loss limit exceeded"
      ∧ severityOf (st.canOpenPosition size exposure now).2
          = some ViolationSeverity.emergency)
  ∧ (st.tradingHalted = false →
      ¬st.limits.maxPositionSize < size →
      ¬st.limits.maxPortfolioExposure < exposure + size →
      ¬st.dailyPnl < -st.limits.maxDailyLoss →
      st.limits.maxDrawdownPercent < st.calculateDrawdown →
      (st.canOpenPosition size exposure now).1
          = st.haltTrading "Drawdown limit exceeded"
      ∧ severityOf (st.canOpenPosition size exposure now).2
          = some ViolationSeverity.emergency)
  ∧ (st.tradingHalted = false →
      ¬st.limits.maxPositionSize < size →
      ¬st.limits.maxPortfolioExposure < exposure + size →
      ¬st.dailyPnl < -st.limits.maxDailyLoss →
      ¬st.limits.maxDrawdownPercent < st.calculateDrawdown →
      st.limits.maxTradesPerHour ≤ (st.cleanupOldTrades now).hourlyTrades.length →
      (st.canOpenPosition size exposure now).1 = st.cleanupOldTrades now
      ∧ severityOf (st.canOpenPosition size exposure now).2
          = some ViolationSeverity.block)
  ∧ (st.tradingHalted = false →
      ¬st.limits.maxPositionSize < size →
      ¬st.limits.maxPortfolioExposure < exposure + size →
      ¬st.dailyPnl < -st.limits.maxDailyLoss →
      ¬st.limits.maxDrawdownPercent < st.calculateDrawdown →
      ¬st.limits.maxTradesPerHour ≤ (st.cleanupOldTrades now).hourlyTrades.length →
      st.limits.maxTradesPerDay ≤ st.dailyTrades →
      (st.canOpenPosition size exposure now).1 = st.cleanupOldTrades now
      ∧ severityOf (st.canOpenPosition size exposure now).2
          = some ViolationSeverity.block)
  ∧ (∀ avgLatency : ℕ,
      st.tradingHalted = false →
      ¬st.limits.maxPositionSize < size →
      ¬st.limits.maxPortfolioExposure < exposure + size →
      ¬st.dailyPnl < -st.limits.maxDailyLoss →
      ¬st.limits.maxDrawdownPercent < st.calculateDrawdown →
      ¬st.limits.maxTradesPerHour ≤ (st.cleanupOldTrades now).hourlyTrades.length →
      ¬st.limits.maxTradesPerDay ≤ st.dailyTrades →
      (st.cleanupOldTrades now).averageLatency = some avgLatency →
      st.limits.maxAcceptableLatencyMs < avgLatency →
      (st.canOpenPosition size exposure now).1 = st.cleanupOldTrades now
      ∧ severityOf (st.canOpenPosition size exposure now).2
          = some ViolationSeverity.warning)
  ∧ (st.tradingHalted = false →
      ¬st.limits.maxPositionSize < size →
      ¬st.limits.maxPortfolioExposure < exposure + size →
      ¬st.dailyPnl < -st.limits.maxDailyLoss →
      ¬st.limits.maxDrawdownPercent < st.calculateDrawdown →
      ¬st.limits.maxTradesPerHour ≤ (st.cleanupOldTrades now).hourlyTrades.length →
      ¬st.limits.maxTradesPerDay ≤ st.dailyTrades →
      (∀ avgLatency : ℕ, (st.cleanupOldTrades now).averageLatency = some avgLatency →
        avgLatency ≤ st.limits.maxAcceptableLatencyMs) →
      st.canOpenPosition size exposure now = (st.cleanupOldTrades now, .ok ())) := by
  have hlim : (st.cleanupOldTrades now).limits = st.limits := rfl
  have hday : ((st.cleanupOldTrades now).dailyTrades) = st.dailyTrades := rfl
  refine ⟨?_, ?_, ?_, ?_, ?_, ?_, ?_, ?_, ?_⟩
  · intro h1
    simp [RiskManager.canOpenPosition, h1]
  · intro h1 h2
    simp [RiskManager.canOpenPosition, h1, h2, severityOf]
  · intro h1 h2 h3
    simp [RiskManager.canOpenPosition, h1, h2, h3, severityOf]
  · intro h1 h2 h3 h4
    simp [RiskManager.canOpenPosition, h1, h2, h3, h4, severityOf]
  · intro h1 h2 h3 h4 h5
    simp [RiskManager.canOpenPosition, h1, h2, h3, h4, h5, severityOf]
  · intro h1 h2 h3 h4 h5 h6
    simp [RiskManager.canOpenPosition, h1, h2, h3, h4, h5, hlim, h6, severityOf]
  · intro h1 h2 h3 h4 h5 h6 h7
    simp [RiskManager.canOpenPosition, h1, h2, h3, h4, h5, hlim, hday, h6, h7,
      severityOf]
  · intro avgLatency h1 h2 h3 h4 h5 h6 h7 h8 h9
    simp [RiskManager.canOpenPosition, h1, h2, h3, h4, h5, hlim, hday, h6, h7,
      h8, h9, severityOf]
  · intro h1 h2 h3 h4 h5 h6 h7 h8
    rcases havg : (st.cleanupOldTrades now).averageLatency with _ | avgLatency
    · simp [RiskManager.canOpenPosition, h1, h2, h3, h4, h5, hlim, hday, h6,
        h7, havg]
    · have := h8 avgLatency havg
      simp [RiskManager.canOpenPosition, h1, h2, h3, h4, h5, hlim, hday, h6,
        h7, havg, not_lt.mpr this]

/-- Witness for C1: a concretely halted manager short-circuits at check 1
with an Emergency violation carrying the current halt reason. -/
theorem canOpenPosition_check_order_witness :
    ((RiskManager.new RiskLimits.default 10000 0).haltTrading "manual").tradingHalted = true
  ∧ ((RiskManager.new RiskLimits.default 10000 0).haltTrading "manual").canOpenPosition 100 0 0
      = ((RiskManager.new RiskLimits.default 10000 0).haltTrading "manual",
        .error ⟨"Trading halted: "
          ++ (((RiskManager.new RiskLimits.default 10000 0).haltTrading "manual").haltReason).getD "Unknown",
          ViolationSeverity.emergency⟩) :=
  ⟨rfl, (canOpenPosition_check_order
    ((RiskManager.new RiskLimits.default 10000 0).haltTrading "manual") 100 0 0).1 rfl⟩

/-- Helper: every mutating operation except `resume_trading` preserves a set
halt flag. -/
lemma applyOp_halted_sticky (st : RiskManager) (op : RMOp)
    (hop : op ≠ RMOp.resume) (h : st.tradingHalted = true) :
    (applyOp st op).tradingHalted = true := by
  cases op with
  | canOpen size exposure now =>
      simp [applyOp, RiskManager.canOpenPosition, h]
  | trade pnl now =>
      simp only [applyOp, RiskManager.recordTrade, RiskManager.checkNewDay]
      split_ifs <;> simp [h]
  | latency ms =>
      simp only [applyOp, RiskManager.recordLatency]
      split_ifs <;> simp [RiskManager.haltTrading, h]
  | halt reason => simp [applyOp, RiskManager.haltTrading]
  | resume => exact absurd rfl hop

/-- Helper: a set halt flag survives any sequence of non-`resume`
operations. -/
lemma foldl_halted_sticky (ops : List RMOp) :
    ∀ st : RiskManager, (∀ op ∈ ops, op ≠ RMOp.resume) →
      st.tradingHalted = true → (ops.foldl applyOp st).tradingHalted = true := by
  induction ops with
  | nil => intro st _ h; exact h
  | cons op rest ih =>
      intro st hops h
      simp only [List.foldl_cons]
      exact ih (applyOp st op)
        (fun o ho => hops o (List.mem_cons_of_mem _ ho))
        (applyOp_halted_sticky st op (hops op (List.mem_cons_self _ _)) h)

/-- C3: the halted flag is sticky: every mutating operation other than
`resume_trading` preserves `trading_halted = true` (the read-only accessors
`is_halted`, `halt_reason` and `get_metrics` take `&self` and are embedded as
pure functions, so they cannot change it), and `resume_trading` is the only
operation that sets it to `false`. -/
theorem trading_halted_sticky :
    (∀ (st : RiskManager) (op : RMOp), op ≠ RMOp.resume →
      st.tradingHalted = true → (applyOp st op).tradingHalted = true)
  ∧ (∀ st : RiskManager, (applyOp st RMOp.resume).tradingHalted = false) :=
  ⟨applyOp_halted_sticky, fun _ => rfl⟩

/-- Witness for C3: on a concretely halted manager, `record_trade` keeps the
halt and `resume_trading` clears it. -/
theorem trading_halted_sticky_witness :
    (RMOp.trade 5 1 ≠ RMOp.resume)
  ∧ ((RiskManager.new RiskLimits.default 10000 0).haltTrading "stop").tradingHalted = true
  ∧ (applyOp ((RiskManager.new RiskLimits.default 10000 0).haltTrading "stop")
      (RMOp.trade 5 1)).tradingHalted = true
  ∧ (applyOp ((RiskManager.new RiskLimits.default 10000 0).haltTrading "stop")
      RMOp.resume).tradingHalted = false :=
  ⟨fun h => RMOp.noConfusion h, rfl,
    trading_halted_sticky.1 _ (RMOp.trade 5 1) (fun h => RMOp.noConfusion h) rfl,
    trading_halted_sticky.2 _⟩

/-- Helper: as long as no call crosses the 24 h day boundary, a fold of
`record_trade` calls keeps `day_start` and the halt flag, accumulates the
PnL sum into `daily_pnl`, and leaves the limits untouched. -/
lemma recordTrade_foldl_state (trades : List (ℚ × ℕ)) :
    ∀ st : RiskManager,
      (∀ p ∈ trades, (p.2 - st.dayStart) / 1000 < 86400) →
      (trades.foldl (fun s p => s.recordTrade p.1 p.2) st).tradingHalted
          = st.tradingHalted
      ∧ (trades.foldl (fun s p => s.recordTrade p.1 p.2) st).dayStart
          = st.dayStart
      ∧ (trades.foldl (fun s p => s.recordTrade p.1 p.2) st).dailyPnl
          = st.dailyPnl + (trades.map Prod.fst).sum
      ∧ (trades.foldl (fun s p => s.recordTrade p.1 p.2) st).limits = st.limits := by
  induction trades with
  | nil => intro st _; simp
  | cons p rest ih =>
      intro st hday
      have hp : (p.2 - st.dayStart) / 1000 < 86400 :=
        hday p (List.mem_cons_self _ _)
      have hstep : st.recordTrade p.1 p.2 =
          { st with
            hourlyTrades := st.hourlyTrades ++ [p.2]
            dailyTrades := st.dailyTrades + 1
            dailyPnl := st.dailyPnl + p.1
            currentEquity := st.currentEquity + p.1
            peakEquity :=
              if st.peakEquity < st.currentEquity + p.1 then
                st.currentEquity + p.1
              else st.peakEquity } := by
        simp only [RiskManager.recordTrade, RiskManager.checkNewDay]
        split_ifs with h1 h2 h2 <;> first | rfl | exact absurd ‹_› (by simpa using hp)
      have := ih (st.recordTrade p.1 p.2)
        (by
          intro q hq
          have := hday q (List.mem_cons_of_mem _ hq)
          rw [hstep]
          simpa using this)
      rw [hstep] at this
      simp only [List.foldl_cons, List.map_cons, List.sum_cons]
      rw [hstep]
      refine ⟨this.1, this.2.1, ?_, this.2.2.2⟩
      rw [this.2.2.1]
      simp only
      ring

/-- C2: with `max_daily_loss = 500` and initial equity 10000, after
`record_trade` calls whose PnL sums to −550 with no day rollover, the next
`can_open_position` with a size inside the position and exposure limits fails
with Emergency severity, leaves the manager halted, and the halt survives any
further sequence of non-`resume` operations. -/
theorem daily_loss_emergency_halts_until_resume
    (limits : RiskLimits) (hml : limits.maxDailyLoss = 500)
    (t0 : ℕ) (trades : List (ℚ × ℕ))
    (hsum : (trades.map Prod.fst).sum = -550)
    (hday : ∀ p ∈ trades, (p.2 - t0) / 1000 < 86400)
    (size exposure : ℚ) (now2 : ℕ)
    (hsize : size ≤ limits.maxPositionSize)
    (hexp : exposure + size ≤ limits.maxPortfolioExposure) :
    severityOf ((trades.foldl (fun s p => s.recordTrade p.1 p.2)
        (RiskManager.new limits 10000 t0)).canOpenPosition size exposure now2).2
      = some ViolationSeverity.emergency
  ∧ ((trades.foldl (fun s p => s.recordTrade p.1 p.2)
        (RiskManager.new limits 10000 t0)).canOpenPosition size exposure now2).1.isHalted
      = true
  ∧ ∀ ops : List RMOp, (∀ op ∈ ops, op ≠ RMOp.resume) →
      (ops.foldl applyOp
        ((trades.foldl (fun s p => s.recordTrade p.1 p.2)
          (RiskManager.new limits 10000 t0)).canOpenPosition size exposure now2).1).isHalted
      = true := by
  have hstate := recordTrade_foldl_state trades (RiskManager.new limits 10000 t0)
    (by simpa [RiskManager.new] using hday)
  set st1 := trades.foldl (fun s p => s.recordTrade p.1 p.2)
    (RiskManager.new limits 10000 t0) with hst1
  obtain ⟨hhalt, -, hpnl, hlim⟩ := hstate
  simp only [RiskManager.new] at hhalt hpnl hlim
  rw [hsum] at hpnl
  have horder := canOpenPosition_check_order st1 size exposure now2
  have h2 : ¬st1.limits.maxPositionSize < size := by
    rw [hlim]; exact not_lt.mpr hsize
  have h3 : ¬st1.limits.maxPortfolioExposure < exposure + size := by
    rw [hlim]; exact not_lt.mpr hexp
  have h4 : st1.dailyPnl < -st1.limits.maxDailyLoss := by
    rw [hlim, hml, hpnl]; norm_num
  obtain ⟨hfst, hsev⟩ := horder.2.2.2.1 hhalt h2 h3 h4
  refine ⟨hsev, ?_, ?_⟩
  · rw [hfst]; rfl
  · intro ops hops
    have : ((st1.canOpenPosition size exposure now2).1).tradingHalted = true := by
      rw [hfst]; rfl
    exact foldl_halted_sticky ops _ hops this

/-- Witness for C2: the default limits (whose `max_daily_loss` is 500), a
single `record_trade(-550)` at instant 0, then `can_open_position(1000, 0)`. -/
theorem daily_loss_emergency_halts_until_resume_witness :
    RiskLimits.default.maxDailyLoss = 500
  ∧ (([((-550 : ℚ), (0 : ℕ))].map Prod.fst).sum = -550)
  ∧ ((1000 : ℚ) ≤ RiskLimits.default.maxPositionSize)
  ∧ (severityOf (([((-550 : ℚ), (0 : ℕ))].foldl (fun s p => s.recordTrade p.1 p.2)
        (RiskManager.new RiskLimits.default 10000 0)).canOpenPosition 1000 0 0).2
      = some ViolationSeverity.emergency
    ∧ (([((-550 : ℚ), (0 : ℕ))].foldl (fun s p => s.recordTrade p.1 p.2)
        (RiskManager.new RiskLimits.default 10000 0)).canOpenPosition 1000 0 0).1.isHalted
      = true
    ∧ ∀ ops : List RMOp, (∀ op ∈ ops, op ≠ RMOp.resume) →
        (ops.foldl applyOp
          (([((-550 : ℚ), (0 : ℕ))].foldl (fun s p => s.recordTrade p.1 p.2)
            (RiskManager.new RiskLimits.default 10000 0)).canOpenPosition 1000 0 0).1).isHalted
        = true) :=
  ⟨rfl, by simp, by norm_num [RiskLimits.default],
    daily_loss_emergency_halts_until_resume RiskLimits.default rfl 0
      [((-550 : ℚ), (0 : ℕ))] (by simp) (by simp) 1000 0 0
      (by norm_num [RiskLimits.default]) (by norm_num [RiskLimits.default])⟩

/-- C4: `record_latency` appends to the capacity-100 buffer, evicting the
oldest reading on overflow, and the manager is halted after the call iff it
was already halted or the post-append buffer has at least 10 readings of
which at least 8 among the most recent 10 exceed
`max_acceptable_latency_ms`.  In particular, on a fresh manager with the
default limits (`max_acceptable_latency_ms = 500`), ten consecutive
`record_latency(600)` calls leave `is_halted() = true`. -/
theorem recordLatency_buffer_and_halt :
    (∀ (st : RiskManager) (ms : ℕ),
      (st.recordLatency ms).recentLatencies =
        (if 100 < (st.recentLatencies ++ [ms]).length
         then (st.recentLatencies ++ [ms]).drop 1
         else st.recentLatencies ++ [ms])
      ∧ ((st.recordLatency ms).tradingHalted = true ↔
          (st.tradingHalted = true
            ∨ (10 ≤ (st.recordLatency ms).recentLatencies.length
              ∧ 8 ≤ countHighLatency st.limits.maxAcceptableLatencyMs
                      (st.recordLatency ms).recentLatencies))))
  ∧ ((List.replicate 10 600).foldl RiskManager.recordLatency
      (RiskManager.new RiskLimits.default 10000 0)).isHalted = true := by
  constructor
  · intro st ms
    constructor
    · simp only [RiskManager.recordLatency]
      split_ifs <;> rfl
    · simp only [RiskManager.recordLatency]
      split_ifs with h1 h2 h3 h2 h3 <;>
        simp_all [RiskManager.haltTrading]
  · decide

/-- Helper: `can_open_position` never touches the equity fields — its
resulting state is the input state, possibly halted and/or with the hourly
window pruned. -/
lemma canOpenPosition_fst_equity (st : RiskManager) (size exposure : ℚ)
    (now : ℕ) :
    ((st.canOpenPosition size exposure now).1.peakEquity = st.peakEquity
      ∧ (st.canOpenPosition size exposure now).1.currentEquity
          = st.currentEquity) := by
  simp only [RiskManager.canOpenPosition]
  split_ifs <;>
    first
    | exact ⟨rfl, rfl⟩
    | (rcases (st.cleanupOldTrades now).averageLatency with _ | avg <;>
        simp only [] <;> (try split_ifs) <;> exact ⟨rfl, rfl⟩)

/-- Helper: every single operation preserves `current_equity ≤ peak_equity`,
never decreases `peak_equity`, and only `record_trade` touches either
field. -/
lemma applyOp_equity (st : RiskManager) (op : RMOp) :
    (st.currentEquity ≤ st.peakEquity →
      (applyOp st op).currentEquity ≤ (applyOp st op).peakEquity)
  ∧ st.peakEquity ≤ (applyOp st op).peakEquity
  ∧ ((∀ pnl now, op ≠ RMOp.trade pnl now) →
      (applyOp st op).peakEquity = st.peakEquity
      ∧ (applyOp st op).currentEquity = st.currentEquity) := by
  cases op with
  | canOpen size exposure now =>
      obtain ⟨hp, hc⟩ := canOpenPosition_fst_equity st size exposure now
      exact ⟨fun h => by rw [applyOp, hp, hc]; exact h,
        le_of_eq (by rw [applyOp, hp]),
        fun _ => ⟨hp, hc⟩⟩
  | trade pnl now =>
      constructor
      · intro _
        simp only [applyOp, RiskManager.recordTrade, RiskManager.checkNewDay]
        split_ifs <;> simp <;> linarith [le_of_not_lt (by assumption : ¬_)]
      · constructor
        · simp only [applyOp, RiskManager.recordTrade, RiskManager.checkNewDay]
          split_ifs with h1 <;> simp_all <;> linarith
        · intro hne; exact absurd rfl (hne pnl now)
  | latency ms =>
      have hpres : (applyOp st (RMOp.latency ms)).peakEquity = st.peakEquity
          ∧ (applyOp st (RMOp.latency ms)).currentEquity = st.currentEquity := by
        simp only [applyOp, RiskManager.recordLatency, RiskManager.haltTrading]
        split_ifs <;> exact ⟨rfl, rfl⟩
      exact ⟨fun h => by rw [hpres.1, hpres.2]; exact h,
        le_of_eq hpres.1.symm, fun _ => hpres⟩
  | halt reason => exact ⟨fun h => h, le_refl _, fun _ => ⟨rfl, rfl⟩⟩
  | resume => exact ⟨fun h => h, le_refl _, fun _ => ⟨rfl, rfl⟩⟩

/-- C10: from any `new(limits, initial_equity)` state, after any sequence of
operations the invariant `current_equity ≤ peak_equity` holds; no single
operation ever decreases `peak_equity`; `record_trade` raises `peak_equity`
to the new `current_equity` exactly when the latter exceeds it; and every
operation other than `record_trade` leaves both equity fields unchanged. -/
theorem peak_equity_invariant :
    (∀ (limits : RiskLimits) (initialEquity : ℚ) (t0 : ℕ) (ops : List RMOp),
      (ops.foldl applyOp (RiskManager.new limits initialEquity t0)).currentEquity
        ≤ (ops.foldl applyOp (RiskManager.new limits initialEquity t0)).peakEquity)
  ∧ (∀ (st : RiskManager) (op : RMOp),
      st.peakEquity ≤ (applyOp st op).peakEquity)
  ∧ (∀ (st : RiskManager) (pnl : ℚ) (now : ℕ),
      (st.recordTrade pnl now).peakEquity =
        if st.peakEquity < st.currentEquity + pnl then st.currentEquity + pnl
        else st.peakEquity)
  ∧ (∀ (st : RiskManager) (op : RMOp),
      (∀ pnl now, op ≠ RMOp.trade pnl now) →
      (applyOp st op).peakEquity = st.peakEquity
      ∧ (applyOp st op).currentEquity = st.currentEquity) := by
  refine ⟨?_, fun st op => (applyOp_equity st op).2.1, ?_,
    fun st op h => (applyOp_equity st op).2.2 h⟩
  · intro limits initialEquity t0 ops
    have : ∀ (l : List RMOp) (st : RiskManager),
        st.currentEquity ≤ st.peakEquity →
        (l.foldl applyOp st).currentEquity ≤ (l.foldl applyOp st).peakEquity := by
      intro l
      induction l with
      | nil => intro st h; exact h
      | cons op rest ih =>
          intro st h
          exact ih (applyOp st op) ((applyOp_equity st op).1 h)
    exact this ops _ (le_refl _)
  · intro st pnl now
    simp only [RiskManager.recordTrade, RiskManager.checkNewDay]
    split_ifs <;> rfl

/-- Witness for C10: part 4 applied to a concrete non-`record_trade`
operation (`resume_trading`) on a concretely constructed manager, plus the
invariant after a concrete operation sequence. -/
theorem peak_equity_invariant_witness :
    (([RMOp.trade 50 1, RMOp.resume].foldl applyOp
        (RiskManager.new RiskLimits.default 10000 0)).currentEquity
      ≤ ([RMOp.trade 50 1, RMOp.resume].foldl applyOp
        (RiskManager.new RiskLimits.default 10000 0)).peakEquity)
  ∧ ((applyOp (RiskManager.new RiskLimits.default 10000 0) RMOp.resume).peakEquity
        = (RiskManager.new RiskLimits.default 10000 0).peakEquity
    ∧ (applyOp (RiskManager.new RiskLimits.default 10000 0) RMOp.resume).currentEquity
        = (RiskManager.new RiskLimits.default 10000 0).currentEquity) :=
  ⟨peak_equity_invariant.1 RiskLimits.default 10000 0 [RMOp.trade 50 1, RMOp.resume],
    peak_equity_invariant.2.2.2 (RiskManager.new RiskLimits.default 10000 0)
      RMOp.resume (fun _ _ h => RMOp.noConfusion h)⟩

/-- Helper: when the post-append (and possibly evicted) history is still
shorter than `min_samples`, `calculate_signal` stores the new ratio and
emits nothing. -/
lemma calculateSignal_insufficient (sq : ℚ → ℚ) (st : ImbalanceDetector)
    (r : ℚ) (now : ℕ)
    (h : (if st.windowSize < (st.history ++ [r]).length
          then (st.history ++ [r]).drop 1 else st.history ++ [r]).length
        < st.minSamples) :
    st.calculateSignal sq (some r) now =
      ({ st with history :=
          if st.windowSize < (st.history ++ [r]).length
          then (st.history ++ [r]).drop 1 else st.history ++ [r] }, none) := by
  simp only [ImbalanceDetector.calculateSignal]
  by_cases h1 : st.windowSize < (st.history ++ [r]).length
  · simp only [h1, if_true] at h ⊢
    rw [if_pos h]
  · simp only [h1, if_false] at h ⊢
    rw [if_pos h]

/-- Helper: starting below 50 stored samples with `min_samples = 50` and
`window_size = 100`, every call of a run short enough to stay below 50
samples emits nothing. -/
lemma runDetector_under_min_all_none (sq : ℚ → ℚ)
    (inputs : List (Option ℚ × ℕ)) :
    ∀ st : ImbalanceDetector,
      st.minSamples = 50 → st.windowSize = 100 →
      st.history.length + inputs.length ≤ 49 →
      ((runDetector sq st inputs).2.all fun o => o.isNone) = true := by
  induction inputs with
  | nil => intro st _ _ _; rfl
  | cons p rest ih =>
      intro st hmin hwin hlen
      obtain ⟨r?, n⟩ := p
      simp only [List.length_cons] at hlen
      cases r? with
      | none =>
          have hstep : st.calculateSignal sq none n = (st, none) := rfl
          simp only [runDetector, hstep, List.all_cons, Option.isNone_none,
            Bool.true_and]
          exact ih st hmin hwin (by omega)
      | some r =>
          have hlen1 : st.history.length + 1 ≤ 49 := by
            omega
          have hnoevict : ¬st.windowSize < (st.history ++ [r]).length := by
            rw [hwin]; simp; omega
          have hshort : (if st.windowSize < (st.history ++ [r]).length
              then (st.history ++ [r]).drop 1 else st.history ++ [r]).length
              < st.minSamples := by
            rw [if_neg hnoevict, hmin]; simp; omega
          have hstep := calculateSignal_insufficient sq st r n hshort
          simp only [runDetector, hstep, List.all_cons, Option.isNone_none,
            Bool.true_and]
          refine ih _ hmin hwin ?_
          rw [if_neg hnoevict]
          simp only [List.length_append, List.length_cons, List.length_nil]
          omega

/-- C6: `calculate_signal` returns no signal whenever the ratio history
after appending the current sample holds fewer than `window_size / 2`
samples (`min_samples` as set by `new`); in particular a detector built with
`window_size = 100` emits nothing on any of its first 49 calls, even when
every call observes a valid imbalance ratio. -/
theorem imbalance_detector_min_samples :
    (∀ (sq : ℚ → ℚ) (st : ImbalanceDetector) (r : ℚ) (now : ℕ),
      st.minSamples = st.windowSize / 2 →
      (if st.windowSize < (st.history ++ [r]).length
        then (st.history ++ [r]).drop 1 else st.history ++ [r]).length
          < st.windowSize / 2 →
      (st.calculateSignal sq (some r) now).2 = none)
  ∧ (∀ (sq : ℚ → ℚ) (levels : ℕ) (threshold : ℚ)
      (inputs : List (Option ℚ × ℕ)),
      inputs.length ≤ 49 →
      ((runDetector sq (ImbalanceDetector.new levels 100 threshold) inputs).2.all
        fun o => o.isNone) = true) := by
  constructor
  · intro sq st r now hmin hshort
    rw [calculateSignal_insufficient sq st r now (by rw [hmin]; exact hshort)]
  · intro sq levels threshold inputs hlen
    exact runDetector_under_min_all_none sq inputs _ rfl rfl
      (by simpa [ImbalanceDetector.new] using hlen)

/-- Witness for C6: a single observed ratio on a fresh
`ImbalanceDetector::new(5, 100, 3.0)` (1 call ≤ 49) emits nothing. -/
theorem imbalance_detector_min_samples_witness :
    ([((some (1 : ℚ)), (0 : ℕ))].length ≤ 49)
  ∧ ((runDetector (fun x => x) (ImbalanceDetector.new 5 100 3)
      [((some (1 : ℚ)), (0 : ℕ))]).2.all fun o => o.isNone) = true :=
  ⟨by simp, imbalance_detector_min_samples.2 (fun x => x) 5 3
    [((some (1 : ℚ)), (0 : ℕ))] (by simp)⟩

/-- C7: aggregating a primary `strength 4.0, confidence 0.8` with two
same-direction confirming signals `strength 2.0/2.5, confidence 0.6/0.7`
(pairwise distinct timestamps) under thresholds `(3.0, 1.5, 2)` yields a
composite with `is_tradeable(2) = true` and confidence
`0.4*0.8 + 0.3*(2/4) + 0.3*0.65 = 0.665 > 0.5`. -/
theorem aggregator_acceptance_example
    (t1 t2 t3 : ℕ) (h21 : t2 ≠ t1) (h31 : t3 ≠ t1) (_h32 : t3 ≠ t2) (now : ℕ) :
    ∃ c : CompositeSignalQ,
      SignalAggregator.aggregate ⟨3, 1.5, 2⟩
        [⟨4, Side.buy, 0.8, t1, []⟩, ⟨2, Side.buy, 0.6, t2, []⟩,
          ⟨2.5, Side.buy, 0.7, t3, []⟩] now = some c
      ∧ c.isTradeable 2 = true
      ∧ c.confidence = 0.665
      ∧ (0.5 : ℚ) < c.confidence := by
  have ha4 : |(4 : ℚ)| = 4 := abs_of_nonneg (by norm_num)
  have ha2 : |(2 : ℚ)| = 2 := abs_of_nonneg (by norm_num)
  have ha25 : |(5 / 2 : ℚ)| = 5 / 2 := abs_of_nonneg (by norm_num)
  refine ⟨⟨⟨4, Side.buy, 0.8, t1, []⟩,
    [⟨2, Side.buy, 0.6, t2, []⟩, ⟨2.5, Side.buy, 0.7, t3, []⟩],
    SignalAggregator.calculateOverallStrength ⟨3, 1.5, 2⟩ ⟨4, Side.buy, 0.8, t1, []⟩
      [⟨2, Side.buy, 0.6, t2, []⟩, ⟨2.5, Side.buy, 0.7, t3, []⟩],
    Side.buy, 0.665, now⟩, ?_, ?_, rfl, by norm_num⟩
  · simp only [SignalAggregator.aggregate, maxByAbsStrength, SignalQ.absStrength,
      List.isEmpty_cons, List.foldl_cons, List.foldl_nil, List.filter_cons,
      List.filter_nil, SignalAggregator.calculateCompositeConfidence]
    norm_num [ha4, ha2, ha25, h21, h31]
  · norm_num [CompositeSignalQ.isTradeable]

/-- Witness for C7: the scenario at concrete timestamps 0, 1, 2. -/
theorem aggregator_acceptance_example_witness :
    ((1 : ℕ) ≠ 0) ∧ ((2 : ℕ) ≠ 0) ∧ ((2 : ℕ) ≠ 1)
  ∧ ∃ c : CompositeSignalQ,
      SignalAggregator.aggregate ⟨3, 1.5, 2⟩
        [⟨4, Side.buy, 0.8, 0, []⟩, ⟨2, Side.buy, 0.6, 1, []⟩,
          ⟨2.5, Side.buy, 0.7, 2, []⟩] 5 = some c
      ∧ c.isTradeable 2 = true
      ∧ c.confidence = 0.665
      ∧ (0.5 : ℚ) < c.confidence :=
  ⟨by decide, by decide, by decide,
    aggregator_acceptance_example 0 1 2 (by decide) (by decide) (by decide) 5⟩

/-- Helper: the fold implementing Rust's `Iterator::max_by` keeps the LAST
maximal element: the result bounds every element, and every element strictly
after it in scan order is strictly smaller. -/
lemma foldl_maxBy_last_maximal (xs : List SignalQ) :
    ∀ x : SignalQ,
      (∀ s ∈ x :: xs,
        s.absStrength ≤ (xs.foldl
          (fun acc s => if s.absStrength < acc.absStrength then acc else s) x).absStrength)
      ∧ ∃ l1 l2, x :: xs = l1 ++ (xs.foldl
            (fun acc s => if s.absStrength < acc.absStrength then acc else s) x) :: l2
          ∧ ∀ s ∈ l2, s.absStrength < (xs.foldl
              (fun acc s => if s.absStrength < acc.absStrength then acc else s) x).absStrength := by
  induction xs with
  | nil =>
      intro x
      refine ⟨?_, [], [], rfl, by simp⟩
      intro s hs
      rw [List.mem_singleton] at hs
      subst hs
      exact le_refl _
  | cons y ys ih =>
      intro x
      simp only [List.foldl_cons]
      by_cases hxy : y.absStrength < x.absStrength
      · rw [if_pos hxy]
        obtain ⟨hbound, l1, l2, hdecomp, hstrict⟩ := ih x
        set r := ys.foldl
          (fun acc s => if s.absStrength < acc.absStrength then acc else s) x with hr
        refine ⟨?_, ?_⟩
        · intro s hs
          rcases List.mem_cons.mp hs with hs1 | hs
          · rw [hs1]; exact hbound x (List.mem_cons_self _ _)
          · rcases List.mem_cons.mp hs with hs1 | hs
            · rw [hs1]
              exact le_of_lt (lt_of_lt_of_le hxy (hbound x (List.mem_cons_self _ _)))
            · exact hbound s (List.mem_cons_of_mem _ hs)
        · cases l1 with
          | nil =>
              simp only [List.nil_append] at hdecomp
              obtain ⟨hx, hys⟩ := List.cons.injEq .. ▸ hdecomp
              refine ⟨[], y :: l2, ?_, ?_⟩
              · simp [← hx, ← hys]
              · intro s hs
                rcases List.mem_cons.mp hs with hs1 | hs
                · rw [hs1]
                  calc y.absStrength < x.absStrength := hxy
                    _ = r.absStrength := by rw [hx]
                · exact hstrict s hs
          | cons a l1t =>
              simp only [List.cons_append] at hdecomp
              obtain ⟨hx, hys⟩ := List.cons.injEq .. ▸ hdecomp
              refine ⟨x :: y :: l1t, l2, ?_, hstrict⟩
              simp [← hx, hys]
      · rw [if_neg hxy]
        obtain ⟨hbound, l1, l2, hdecomp, hstrict⟩ := ih y
        refine ⟨?_, x :: l1, l2, by rw [List.cons_append, ← hdecomp], hstrict⟩
        intro s hs
        rcases List.mem_cons.mp hs with hs1 | hs
        · rw [hs1]
          exact le_trans (not_lt.mp hxy) (hbound y (List.mem_cons_self _ _))
        · exact hbound s hs

/-- C9: on a non-empty input, `aggregate`'s primary selection yields an
element of maximal `|strength|`, and on ties the LAST maximal element in
scan order; whenever `aggregate` returns a composite, its `primary` is that
element. -/
theorem aggregate_primary_is_last_maximal (signals : List SignalQ)
    (h : signals ≠ []) :
    ∃ p : SignalQ,
      maxByAbsStrength signals = some p
      ∧ (∀ s ∈ signals, s.absStrength ≤ p.absStrength)
      ∧ (∃ l1 l2, signals = l1 ++ p :: l2
          ∧ ∀ s ∈ l2, s.absStrength < p.absStrength)
      ∧ (∀ (agg : SignalAggregator) (now : ℕ) (c : CompositeSignalQ),
          agg.aggregate signals now = some c → c.primary = p) := by
  cases signals with
  | nil => exact absurd rfl h
  | cons x xs =>
      obtain ⟨hbound, hlast⟩ := foldl_maxBy_last_maximal xs x
      refine ⟨_, rfl, hbound, hlast, ?_⟩
      intro agg now c hc
      simp only [SignalAggregator.aggregate, maxByAbsStrength,
        List.isEmpty_cons, Bool.false_eq_true, if_false] at hc
      split_ifs at hc
      all_goals
        first
        | exact Option.noConfusion hc
        | (cases hc; rfl)

/-- Witness for C9: a concrete two-signal list with tied `|strength|`. -/
theorem aggregate_primary_is_last_maximal_witness :
    ([(⟨3, Side.buy, 1, 0, []⟩ : SignalQ), ⟨-3, Side.sell, 0.5, 1, []⟩] ≠ [])
  ∧ ∃ p : SignalQ,
      maxByAbsStrength [⟨3, Side.buy, 1, 0, []⟩, ⟨-3, Side.sell, 0.5, 1, []⟩]
        = some p
      ∧ (∀ s ∈ [(⟨3, Side.buy, 1, 0, []⟩ : SignalQ), ⟨-3, Side.sell, 0.5, 1, []⟩],
          s.absStrength ≤ p.absStrength)
      ∧ (∃ l1 l2,
          [(⟨3, Side.buy, 1, 0, []⟩ : SignalQ), ⟨-3, Side.sell, 0.5, 1, []⟩]
            = l1 ++ p :: l2
          ∧ ∀ s ∈ l2, s.absStrength < p.absStrength)
      ∧ (∀ (agg : SignalAggregator) (now : ℕ) (c : CompositeSignalQ),
          agg.aggregate [⟨3, Side.buy, 1, 0, []⟩, ⟨-3, Side.sell, 0.5, 1, []⟩] now
            = some c → c.primary = p) :=
  ⟨by simp,
    aggregate_primary_is_last_maximal
      [⟨3, Side.buy, 1, 0, []⟩, ⟨-3, Side.sell, 0.5, 1, []⟩] (by simp)⟩

/-! ## C8: Warning severity at the execution gate -/

/-- C8: the claim (and §4.5 of the spec, echoing the source comment
`Warning — Log but allow trade` on `ViolationSeverity`) says a
Warning-severity violation is advisory and execution still proceeds.  It
does not: `execute_signal` propagates every `can_open_position` error with
`?`, Warning included.  Concretely: a fresh manager with the default limits
after one `record_latency(600)` reading has average latency 600 > 500, so
`can_open_position` returns a Warning violation, and the execution gate
aborts (`proceeds = false`) instead of submitting the trade. -/
theorem warning_violation_blocks_execution :
    severityOf (((RiskManager.new RiskLimits.default 10000 0).recordLatency 600).canOpenPosition
        ((ExecutionEngine.new
          ((RiskManager.new RiskLimits.default 10000 0).recordLatency 600)
          1000).calculatePositionSize 0.5) 0 0).2
      = some ViolationSeverity.warning
  ∧ proceeds ((ExecutionEngine.new
        ((RiskManager.new RiskLimits.default 10000 0).recordLatency 600)
        1000).executeSignalGate 0.5 0 0).2
      = false := by
  have hrm : (RiskManager.new RiskLimits.default 10000 0).recordLatency 600
      = { RiskManager.new RiskLimits.default 10000 0 with
          recentLatencies := [600] } := by
    norm_num [RiskManager.recordLatency, RiskManager.new, RiskLimits.default,
      countHighLatency]
  have hsize : ((ExecutionEngine.new
      ((RiskManager.new RiskLimits.default 10000 0).recordLatency 600)
      1000).calculatePositionSize 0.5) = 1250 := by
    norm_num [ExecutionEngine.calculatePositionSize, ExecutionEngine.new]
  have hcheck : (((RiskManager.new RiskLimits.default 10000 0).recordLatency
      600).canOpenPosition 1250 0 0).2
      = .error ⟨"Average latency " ++ toString (600 : ℕ) ++ "ms exceeds limit "
          ++ toString (500 : ℕ) ++ "ms", ViolationSeverity.warning⟩ := by
    rw [hrm]
    norm_num [RiskManager.canOpenPosition, RiskManager.new, RiskLimits.default,
      RiskManager.calculateDrawdown, RiskManager.cleanupOldTrades,
      RiskManager.averageLatency, dropOlderThan]
  constructor
  · rw [hsize, hcheck]; rfl
  · have hpair : (((RiskManager.new RiskLimits.default 10000 0).recordLatency
        600).canOpenPosition 1250 0 0)
        = ((((RiskManager.new RiskLimits.default 10000 0).recordLatency
            600).canOpenPosition 1250 0 0).1,
          .error ⟨"Average latency " ++ toString (600 : ℕ) ++ "ms exceeds limit "
            ++ toString (500 : ℕ) ++ "ms", ViolationSeverity.warning⟩) := by
      rw [← hcheck]
    have hrm2 : (ExecutionEngine.new
        ((RiskManager.new RiskLimits.default 10000 0).recordLatency 600)
        1000).riskManager
        = (RiskManager.new RiskLimits.default 10000 0).recordLatency 600 := rfl
    simp only [ExecutionEngine.executeSignalGate]
    rw [hrm2, hsize, hpair]
    rfl
